import Mathlib

/-!
# Verification of the WeTS interactive decoding pipeline

Shallow embedding of `codes_src/ibox_interactive.py` (the chunk → buffer →
batch → reassemble pipeline) and of
`codes_src/fairseq/optim/lr_scheduler/warmup_linear_scheduler.py`.

Python strings are modelled as `List Char`; Python `str.strip()` as removal
of leading and trailing whitespace characters; Python exceptions as the
`Except`/`Option` monads.  The external collaborators (tokenizer, BPE,
model ensemble, batch iterator) are abstracted exactly where the source
delegates to them: the inference engine is an abstract function from a
source line to its ranked hypothesis list, and the batch iterator is an
arbitrary partition of the buffer's local ids.
-/

namespace WeTS

/-- Python `str.strip()` on a `List Char`: drop leading and trailing
whitespace (modelled with `Char.isWhitespace`). -/
def pyStrip (s : List Char) : List Char :=
  ((s.dropWhile Char.isWhitespace).reverse.dropWhile Char.isWhitespace).reverse

/-- The successive slices `text[i:i+(k+1)]` for `i = 0, k+1, 2*(k+1), ...`:
the chunk list produced by `cut_str(text, length)` for a positive `length`
(`k + 1` is the chunk length, so that the recursion is well defined). -/
def cutChunks (k : Nat) : List Char → List (List Char)
  | [] => []
  | c :: cs => ((c :: cs).take (k + 1)) :: cutChunks k (cs.drop k)
termination_by l => l.length
decreasing_by simp [List.length_drop]; omega

/-- `cut_str(text, length)` (ibox_interactive.py, lines 34–35):
`[text[i:i+length] for i in range(0, len(text), length)]`.
`range` with step `0` raises `ValueError`; with a negative step and a
non-negative stop it is empty, so the comprehension yields `[]`. -/
def cut_str (text : List Char) (length : Int) : Except String (List (List Char)) :=
  if length = 0 then Except.error "ValueError: range() arg 3 must not be zero"
  else if length < 0 then Except.ok []
  else Except.ok (cutChunks (length.toNat - 1) text)

/-- Tests whether an `Except` value is an error. -/
def isError {ε α : Type} : Except ε α → Bool
  | Except.error _ => true
  | Except.ok _ => false

theorem cutChunks_nil (k : Nat) : cutChunks k [] = [] := by
  simp [cutChunks]

theorem cutChunks_cons (k : Nat) (c : Char) (cs : List Char) :
    cutChunks k (c :: cs) = ((c :: cs).take (k + 1)) :: cutChunks k (cs.drop k) := by
  rw [cutChunks]

theorem cutChunks_eq_nil_iff (k : Nat) (text : List Char) :
    cutChunks k text = [] ↔ text = [] := by
  cases text with
  | nil => simp [cutChunks_nil]
  | cons c cs => simp [cutChunks_cons]

theorem cutChunks_join (k : Nat) :
    ∀ (n : Nat) (text : List Char), text.length ≤ n → (cutChunks k text).flatten = text := by
  intro n
  induction n with
  | zero =>
    intro text h
    have : text = [] := List.length_eq_zero.mp (Nat.le_zero.mp h)
    subst this
    simp [cutChunks_nil]
  | succ n ih =>
    intro text h
    cases text with
    | nil => simp [cutChunks_nil]
    | cons c cs =>
      rw [cutChunks_cons]
      have hd : (cs.drop k).length ≤ n := by
        simp only [List.length_drop]
        simp only [List.length_cons] at h
        omega
      have := ih (cs.drop k) hd
      simp only [List.flatten_cons, this]
      have : cs.drop k = (c :: cs).drop (k + 1) := by
        simp [List.drop_succ_cons]
      rw [this]
      exact List.take_append_drop (k + 1) (c :: cs)

theorem cutChunks_length_bounds (k : Nat) :
    ∀ (n : Nat) (text : List Char), text.length ≤ n →
      ∀ c ∈ cutChunks k text, 1 ≤ c.length ∧ c.length ≤ k + 1 := by
  intro n
  induction n with
  | zero =>
    intro text h
    have : text = [] := List.length_eq_zero.mp (Nat.le_zero.mp h)
    subst this
    simp [cutChunks_nil]
  | succ n ih =>
    intro text h
    cases text with
    | nil => simp [cutChunks_nil]
    | cons c cs =>
      rw [cutChunks_cons]
      intro x hx
      rcases List.mem_cons.mp hx with hx | hx
      · subst hx
        constructor
        · simp [List.length_take]
        · simp [List.length_take]
      · exact ih (cs.drop k) (by simp only [List.length_drop]; simp only [List.length_cons] at h; omega) x hx

theorem cutChunks_dropLast_length (k : Nat) :
    ∀ (n : Nat) (text : List Char), text.length ≤ n →
      ∀ c ∈ (cutChunks k text).dropLast, c.length = k + 1 := by
  intro n
  induction n with
  | zero =>
    intro text h
    have : text = [] := List.length_eq_zero.mp (Nat.le_zero.mp h)
    subst this
    simp [cutChunks_nil]
  | succ n ih =>
    intro text h
    cases text with
    | nil => simp [cutChunks_nil]
    | cons c cs =>
      rw [cutChunks_cons]
      cases hrest : cutChunks k (cs.drop k) with
      | nil => simp
      | cons r rs =>
        intro x hx
        rw [List.dropLast_cons₂] at hx
        rcases List.mem_cons.mp hx with hx | hx
        · subst hx
          have hne : cs.drop k ≠ [] := by
            intro hcontra
            rw [hcontra, cutChunks_nil] at hrest
            exact List.noConfusion hrest
          have hlen : k < cs.length := by
            by_contra hk
            push_neg at hk
            exact hne (List.drop_eq_nil_of_le hk)
          simp [List.length_take]
          omega
        · have hd : (cs.drop k).length ≤ n := by
            simp only [List.length_drop]
            simp only [List.length_cons] at h
            omega
          have := ih (cs.drop k) hd x
          rw [hrest] at this
          exact this hx

/-- The loop body of `buffered_read_str` (ibox_interactive.py, lines 37–47):
`buffer` is the accumulator; each remaining chunk `src_str` passes the guard
`if src_str.strip() is not None:` — which is always true in Python, since
`strip()` returns a string and never `None` — so `src_str.strip()` is
appended unconditionally; a buffer is yielded whenever it reaches
`buffer_size`, and a final non-empty remainder is yielded at the end. -/
def bufferLoop (buffer_size : Nat) : List (List Char) → List (List Char) → List (List (List Char))
  | buffer, [] => if buffer.length > 0 then [buffer] else []
  | buffer, src_str :: rest =>
    let buffer2 := buffer ++ [pyStrip src_str]
    if buffer2.length ≥ buffer_size then buffer2 :: bufferLoop buffer_size [] rest
    else bufferLoop buffer_size buffer2 rest

/-- `buffered_read_str(input, buffer_size)` (ibox_interactive.py, lines
37–47): cut the input into 250-character chunks with `cut_str(input, 250)`
and group the stripped chunks into buffers of `buffer_size` lines. -/
def buffered_read_str (input : List Char) (buffer_size : Nat) : List (List (List Char)) :=
  match cut_str input 250 with
  | Except.ok input_list => bufferLoop buffer_size [] input_list
  | Except.error _ => []

/-- The stream of lines that `buffered_read_str` appends to its buffers:
every chunk of `cut_str(input, 250)`, stripped.  (The guard in the source is
always true, so no chunk is dropped.) -/
def pipelineLines (input : List Char) : List (List Char) :=
  (cutChunks 249 input).map pyStrip

/-- The Chunker's output sequence as the spec describes it: the trimmed
chunks with the ones that trim to empty dropped.  This definition follows
the spec's words, for comparison with the code: the code's guard
`src_str.strip() is not None` never drops anything. -/
def specChunkerOutput (input : List Char) : List (List Char) :=
  ((cutChunks 249 input).map pyStrip).filter (fun l => !l.isEmpty)

theorem cut_str_250 (input : List Char) :
    cut_str input 250 = Except.ok (cutChunks 249 input) := by
  simp [cut_str]

theorem bufferLoop_flatten (buffer_size : Nat) :
    ∀ (lines : List (List Char)) (buffer : List (List Char)),
      (bufferLoop buffer_size buffer lines).flatten = buffer ++ lines.map pyStrip := by
  intro lines
  induction lines with
  | nil =>
    intro buffer
    by_cases h : buffer.length > 0
    · simp [bufferLoop, h]
    · have : buffer = [] := List.length_eq_zero.mp (by omega)
      simp [bufferLoop, this]
  | cons s rest ih =>
    intro buffer
    simp only [bufferLoop]
    by_cases h : (buffer ++ [pyStrip s]).length ≥ buffer_size
    · simp only [h, if_pos]
      simp [ih]
    · simp only [h, if_neg, not_false_iff]
      simp only [ih]
      simp

theorem buffered_read_str_flatten (input : List Char) (buffer_size : Nat) :
    (buffered_read_str input buffer_size).flatten = pipelineLines input := by
  rw [buffered_read_str, cut_str_250]
  rw [bufferLoop_flatten]
  simp [pipelineLines]

/-- The external collaborators of `run_decoding`, abstracted where the
source delegates to them.  `infer` models one row of
`task.inference_step`: the ranked hypothesis list (`hypos`) the engine
returns for one source line — the engine is deterministic, so the
hypotheses are a function of the line.  `postProcess` models
`utils.post_process_prediction` followed by `decode_fn`, applied to the top
hypothesis (`hypos[0]`) and its source line, producing the decoded output
text of that line. -/
structure Engine (Out : Type) where
  infer : List Char → List Out
  postProcess : Out → List Char → List Char

variable {Out : Type}

/-- Comparison used by `sorted(results, key=lambda x: x[0])`: compare the
global ids in the first component. -/
def keyLe (a b : Nat × List Char × List Out) : Prop := a.1 ≤ b.1

instance : DecidableRel (@keyLe Out) :=
  fun a b => inferInstanceAs (Decidable (a.1 ≤ b.1))

/-- One iteration of the output loop of `run_decoding` (ibox_interactive.py,
lines 183–203): take the top hypothesis `hypos[0]` (an `IndexError`, i.e.
`none`, when the hypothesis list is empty) and post-process and decode it
against its source line. -/
def topProcess (E : Engine Out) (r : Nat × List Char × List Out) : Option (List Char) :=
  match r.2.2 with
  | [] => none
  | hypo :: _ => some (E.postProcess hypo r.2.1)

/-- The Result Reassembler (ibox_interactive.py, lines 182–204): sort the
collected `(start_id + id, src_tokens, hypos)` results by their first
component — Python's `sorted` is stable; `List.insertionSort` with `≤` on
the key is stable too, and all keys in use are distinct — then decode the
top hypothesis of each and join the decoded strings
(`result_str = ''.join(result_str_list)`). -/
def reassemble (E : Engine Out) (results : List (Nat × List Char × List Out)) :
    Option (List Char) :=
  ((List.insertionSort keyLe results).mapM (topProcess E)).map List.flatten

/-- The result-collection loop of `run_decoding` (ibox_interactive.py, lines
163–180): for each batch (a list of buffer-local ids chosen by the external
batch iterator) and each row `(id, hypos)` of that batch,
`results.append((start_id + id, src_tokens_i, hypos))`.  The line at local
id `id` is `inputs[id]` (dataset indices of `build_dataset_for_inference`
are positions in `inputs`); `hypos` is the deterministic engine's output for
that line. -/
def collectResults (E : Engine Out) (start_id : Nat) (inputs : List (List Char))
    (batches : List (List Nat)) : List (Nat × List Char × List Out) :=
  batches.flatten.map
    (fun id => (start_id + id, inputs.getD id [], E.infer (inputs.getD id [])))

/-- Processing of one buffer inside `run_decoding`: collect the results of
all its batches, then reassemble them into the buffer's output string. -/
def processBuffer (E : Engine Out) (start_id : Nat) (inputs : List (List Char))
    (batches : List (List Nat)) : Option (List Char) :=
  reassemble E (collectResults E start_id inputs batches)

/-- The buffer loop of `run_decoding` (ibox_interactive.py, lines 160–228):
process each buffer in arrival order with the running `start_id`, execute
`start_id += len(inputs)` after each buffer, and collect the per-buffer
output strings (`output_str_list`).  `plan inputs` is the batch partition
(the lists of buffer-local ids) the external batch iterator chooses for the
buffer `inputs`. -/
def runBuffers (E : Engine Out) (plan : List (List Char) → List (List Nat)) :
    Nat → List (List (List Char)) → Option (List Char)
  | _, [] => some []
  | start_id, inputs :: rest => do
    let s ← processBuffer E start_id inputs (plan inputs)
    let r ← runBuffers E plan (start_id + inputs.length) rest
    pure (s ++ r)

/-- `run_decoding(input)` (ibox_interactive.py, lines 156–228): read the
input into buffers with `buffered_read_str(input, buffer_size)`, process the
buffers sequentially starting from `start_id = 0`, and return
`''.join(output_str_list)`. -/
def run_decoding (E : Engine Out) (plan : List (List Char) → List (List Nat))
    (input : List Char) (buffer_size : Nat) : Option (List Char) :=
  runBuffers E plan 0 (buffered_read_str input buffer_size)

/-- The decoded top hypothesis of one line: what `run_decoding` emits for a
line whose hypothesis list is non-empty. -/
def topDecode (E : Engine Out) (l : List Char) : List Char :=
  match E.infer l with
  | [] => []
  | hypo :: _ => E.postProcess hypo l

/-- The ascending-LocalId concatenation for a buffer of `N` lines whose
line contents and hypothesis lists are given by `f`: decode the top
hypothesis of each local id `0, 1, ..., N-1` in that order and join. -/
def ascendingOutput (E : Engine Out) (N : Nat) (f : Nat → List Char × List Out) :
    Option (List Char) :=
  (((List.range N).map (fun i => (i, f i))).mapM (topProcess E)).map List.flatten

theorem mapM_eq_some_map {α β : Type} (g : α → Option β) (l : List α) (f : α → β)
    (h : ∀ a ∈ l, g a = some (f a)) : l.mapM g = some (l.map f) := by
  induction l with
  | nil => rw [List.mapM_nil]; rfl
  | cons a l ih =>
    rw [List.mapM_cons]
    rw [h a (by simp), ih (fun x hx => h x (by simp [hx]))]
    rfl

/-- A stable sort of any permutation of a list whose keys are strictly
increasing returns that list itself. -/
theorem insertionSort_eq_of_perm_keys_lt
    (l canonical : List (Nat × List Char × List Out))
    (hp : l.Perm canonical)
    (hc : canonical.Pairwise (fun a b => a.1 < b.1)) :
    List.insertionSort keyLe l = canonical := by
  haveI : IsTotal (Nat × List Char × List Out) keyLe :=
    ⟨fun a b => Nat.le_total a.1 b.1⟩
  haveI : IsTrans (Nat × List Char × List Out) keyLe :=
    ⟨fun a b c h1 h2 => Nat.le_trans h1 h2⟩
  haveI : IsAntisymm (Nat × List Char × List Out) (fun a b => a.1 < b.1) :=
    ⟨fun a b h1 h2 => absurd h2 (Nat.lt_asymm h1)⟩
  have hperm : (List.insertionSort keyLe l).Perm canonical :=
    (List.perm_insertionSort keyLe l).trans hp
  have hsorted : (List.insertionSort keyLe l).Pairwise (fun a b => a.1 < b.1) := by
    have hs : (List.insertionSort keyLe l).Sorted keyLe :=
      List.sorted_insertionSort keyLe l
    have hne : (List.insertionSort keyLe l).Pairwise (fun a b => a.1 ≠ b.1) := by
      have h1 : canonical.Pairwise (fun a b => a.1 ≠ b.1) :=
        hc.imp (fun hab => Nat.ne_of_lt hab)
      exact (List.Perm.pairwise_iff (fun hab h => hab h.symm) hperm).mpr h1
    exact (hs.and hne).imp (fun hab => Nat.lt_of_le_of_ne hab.1 hab.2)
  exact List.eq_of_perm_of_sorted hperm hsorted hc

theorem collectResults_eq_map (E : Engine Out) (start_id : Nat)
    (inputs : List (List Char)) (batches : List (List Nat)) :
    collectResults E start_id inputs batches = batches.flatten.map
      (fun id => (start_id + id, inputs.getD id [], E.infer (inputs.getD id []))) := rfl

/-- Key lemma for one buffer: whatever partition of the local ids the batch
iterator chooses, the reassembled output is the in-order concatenation of
the decoded top hypotheses of the buffer's lines. -/
theorem processBuffer_eq (E : Engine Out) (start_id : Nat)
    (inputs : List (List Char)) (batches : List (List Nat))
    (hb : batches.flatten.Perm (List.range inputs.length))
    (hne : ∀ l, E.infer l ≠ []) :
    processBuffer E start_id inputs batches
      = some ((inputs.map (topDecode E)).flatten) := by
  rw [processBuffer, reassemble, collectResults_eq_map]
  have hpair : ((List.range inputs.length).map
      (fun id => (start_id + id, inputs.getD id [], E.infer (inputs.getD id [])))).Pairwise
      (fun a b => a.1 < b.1) := by
    rw [List.pairwise_map]
    exact (List.pairwise_lt_range inputs.length).imp (fun hab => by simpa using hab)
  have hsort := insertionSort_eq_of_perm_keys_lt
    (batches.flatten.map
      (fun id => (start_id + id, inputs.getD id [], E.infer (inputs.getD id []))))
    ((List.range inputs.length).map
      (fun id => (start_id + id, inputs.getD id [], E.infer (inputs.getD id []))))
    (hb.map _) hpair
  rw [hsort]
  rw [mapM_eq_some_map (topProcess E) _
    (fun r => match r.2.2 with
      | [] => []
      | hypo :: _ => E.postProcess hypo r.2.1)
    (by
      intro a ha
      rcases List.mem_map.mp ha with ⟨id, hid, rfl⟩
      simp only [topProcess]
      rcases hinfer : E.infer (inputs.getD id []) with _ | ⟨hypo, rest⟩
      · exact absurd hinfer (hne _)
      · rfl)]
  have hmap : (List.range inputs.length).map
        ((fun r : Nat × List Char × List Out => match r.2.2 with
          | [] => []
          | hypo :: _ => E.postProcess hypo r.2.1)
          ∘ (fun id => (start_id + id, inputs.getD id [], E.infer (inputs.getD id []))))
      = inputs.map (topDecode E) := by
    apply List.ext_get
    · simp
    · intro n h1 h2
      simp only [List.get_map, List.get_range, Function.comp]
      have hn : n < inputs.length := by simpa using h2
      rw [List.getD_eq_getElem inputs [] hn]
      simp only [topDecode]
      rfl
  rw [List.map_map]
  rw [hmap]
  rfl

theorem runBuffers_eq (E : Engine Out) (plan : List (List Char) → List (List Nat))
    (hplan : ∀ lines, (plan lines).flatten.Perm (List.range lines.length))
    (hne : ∀ l, E.infer l ≠ []) :
    ∀ (bufs : List (List (List Char))) (start_id : Nat),
      runBuffers E plan start_id bufs
        = some ((bufs.map (fun b => (b.map (topDecode E)).flatten)).flatten) := by
  intro bufs
  induction bufs with
  | nil => intro start_id; simp [runBuffers]
  | cons b rest ih =>
    intro start_id
    rw [runBuffers]
    rw [processBuffer_eq E start_id b (plan b) (hplan b) hne]
    rw [ih (start_id + b.length)]
    simp

theorem flatten_map_flatten {α β : Type} (f : α → List β) (l : List (List α)) :
    (l.map (fun b => (b.map f).flatten)).flatten = (l.flatten.map f).flatten := by
  induction l with
  | nil => simp
  | cons b rest ih => simp [ih]

/-- A concrete deterministic engine used to instantiate the theorems: one
hypothesis per line (the line doubled); post-processing returns the
hypothesis text unchanged. -/
def sampleEngine : Engine (List Char) where
  infer l := [l ++ l]
  postProcess h _ := h

/-- The trivial batch plan: one batch holding all local ids in order. -/
def singleBatchPlan (lines : List (List Char)) : List (List Nat) :=
  [List.range lines.length]

/-- C1: for every input text and every buffer capacity B ≥ 1, with a
deterministic engine that returns one ranked hypothesis list per submitted
id, `run_decoding` returns the concatenation of the decoded top hypotheses
of all lines in original input order — buffers processed strictly in
arrival order, lines within each buffer restored to ascending local-id
order — independent of how the batch iterator partitions or reorders the
ids of each buffer. -/
theorem run_decoding_ordered (E : Engine Out)
    (plan : List (List Char) → List (List Nat)) (input : List Char) (B : Nat)
    (hB : 1 ≤ B)
    (hplan : ∀ lines, (plan lines).flatten.Perm (List.range lines.length))
    (hne : ∀ l, E.infer l ≠ []) :
    run_decoding E plan input B
      = some (((pipelineLines input).map (topDecode E)).flatten) := by
  rw [run_decoding, runBuffers_eq E plan hplan hne]
  rw [flatten_map_flatten, buffered_read_str_flatten]

theorem run_decoding_ordered_witness :
    run_decoding sampleEngine singleBatchPlan ('a' :: 'b' :: []) 1
      = some (((pipelineLines ('a' :: 'b' :: [])).map (topDecode sampleEngine)).flatten) :=
  run_decoding_ordered sampleEngine singleBatchPlan ('a' :: 'b' :: []) 1
    (by decide)
    (fun lines => by simpa [singleBatchPlan] using List.Perm.refl (List.range lines.length))
    (fun l => by simp [sampleEngine])

/-- C2: the Result Reassembler's per-buffer output is invariant under any
permutation of the order in which batch results arrive: any two feeds of
the same set of `(id, line, hypotheses)` results produce the same output
string, equal to the ascending-local-id concatenation. -/
theorem reassemble_perm_invariant (E : Engine Out) (N : Nat)
    (f : Nat → List Char × List Out) (r1 r2 : List (Nat × List Char × List Out))
    (h1 : r1.Perm ((List.range N).map (fun i => (i, f i))))
    (h2 : r2.Perm ((List.range N).map (fun i => (i, f i)))) :
    reassemble E r1 = reassemble E r2
      ∧ reassemble E r1 = ascendingOutput E N f := by
  have hpair : ((List.range N).map (fun i => (i, f i))).Pairwise
      (fun a b => a.1 < b.1) := by
    rw [List.pairwise_map]
    exact (List.pairwise_lt_range N).imp (fun h => by simpa using h)
  have e1 := insertionSort_eq_of_perm_keys_lt _ _ h1 hpair
  have e2 := insertionSort_eq_of_perm_keys_lt _ _ h2 hpair
  constructor
  · rw [reassemble, reassemble, e1, e2]
  · rw [reassemble, e1, ascendingOutput]

theorem reassemble_perm_invariant_witness :
    reassemble sampleEngine
        ((1, 'b' :: [], (('B' :: []) :: [])) :: (0, 'a' :: [], (('A' :: []) :: [])) :: [])
      = reassemble sampleEngine
        ((0, 'a' :: [], (('A' :: []) :: [])) :: (1, 'b' :: [], (('B' :: []) :: [])) :: [])
    ∧ reassemble sampleEngine
        ((1, 'b' :: [], (('B' :: []) :: [])) :: (0, 'a' :: [], (('A' :: []) :: [])) :: [])
      = ascendingOutput sampleEngine 2
        (fun i => (if i = 0 then 'a' :: [] else 'b' :: [],
          (if i = 0 then 'A' :: [] else 'B' :: []) :: [])) :=
  reassemble_perm_invariant sampleEngine 2
    (fun i => (if i = 0 then 'a' :: [] else 'b' :: [],
      (if i = 0 then 'A' :: [] else 'B' :: []) :: []))
    _ _ (by decide) (by decide)

/-- C4: for every text and every chunk length L > 0, `cut_str(text, L)`
produces chunks covering the text left to right with no overlap and no gaps
(their concatenation equals the text), every chunk except possibly the last
has length exactly L, the final chunk has length between 1 and L, and empty
text yields zero chunks. -/
theorem cut_str_covers (text : List Char) (L : Int) (hL : 0 < L) :
    ∃ chunks, cut_str text L = Except.ok chunks
      ∧ chunks.flatten = text
      ∧ (∀ c ∈ chunks.dropLast, c.length = L.toNat)
      ∧ (∀ c ∈ chunks, 1 ≤ c.length ∧ c.length ≤ L.toNat)
      ∧ (text = [] → chunks = []) := by
  have h0 : ¬ (L = 0) := by omega
  have h1 : ¬ (L < 0) := by omega
  have hk : L.toNat - 1 + 1 = L.toNat := by omega
  refine ⟨cutChunks (L.toNat - 1) text, ?_, ?_, ?_, ?_, ?_⟩
  · rw [cut_str, if_neg h0, if_neg h1]
  · exact cutChunks_join _ text.length text le_rfl
  · intro c hc
    rw [← hk]
    exact cutChunks_dropLast_length _ text.length text le_rfl c hc
  · intro c hc
    rw [← hk]
    exact cutChunks_length_bounds _ text.length text le_rfl c hc
  · intro h
    subst h
    exact cutChunks_nil _

theorem cut_str_covers_witness :
    ∃ chunks, cut_str ('a' :: 'b' :: 'c' :: 'd' :: 'e' :: []) 3 = Except.ok chunks
      ∧ chunks.flatten = ('a' :: 'b' :: 'c' :: 'd' :: 'e' :: [])
      ∧ (∀ c ∈ chunks.dropLast, c.length = (3 : Int).toNat)
      ∧ (∀ c ∈ chunks, 1 ≤ c.length ∧ c.length ≤ (3 : Int).toNat)
      ∧ (('a' :: 'b' :: 'c' :: 'd' :: 'e' :: []) = ([] : List Char) → chunks = []) :=
  cut_str_covers ('a' :: 'b' :: 'c' :: 'd' :: 'e' :: []) 3 (by decide)

/-- The successive values of `start_id` at the moment each buffer is
batched: transcribes the threading of `start_id` in `run_decoding`
(initialised to `0` at line 161, `start_id += len(inputs)` at line 226),
one entry per buffer in arrival order. -/
def bufferOffsets {α : Type} : Nat → List (List α) → List Nat
  | _, [] => []
  | s, b :: rest => s :: bufferOffsets (s + b.length) rest

/-- The global ids `start_id + id` (ibox_interactive.py, line 179) assigned
across the buffers, listed in input order: for each buffer, its offset plus
each local id `0, ..., len(inputs) - 1`, with the offset threaded exactly as
`start_id` is in `run_decoding`. -/
def globalIds {α : Type} : Nat → List (List α) → List Nat
  | _, [] => []
  | s, b :: rest =>
    (List.range b.length).map (fun i => s + i) ++ globalIds (s + b.length) rest

theorem bufferOffsets_getD {α : Type} :
    ∀ (bufs : List (List α)) (s k : Nat), k < bufs.length →
      (bufferOffsets s bufs).getD k 0 = s + ((bufs.take k).map List.length).sum := by
  intro bufs
  induction bufs with
  | nil => intro s k h; simp at h
  | cons b rest ih =>
    intro s k h
    cases k with
    | zero => simp [bufferOffsets]
    | succ k =>
      rw [bufferOffsets]
      rw [List.getD_cons_succ]
      rw [ih (s + b.length) k (by simpa using Nat.lt_of_succ_lt_succ h)]
      rw [List.take_succ_cons]
      simp
      omega

theorem globalIds_eq {α : Type} :
    ∀ (bufs : List (List α)) (s : Nat),
      globalIds s bufs
        = (List.range ((bufs.map List.length).sum)).map (fun i => s + i) := by
  intro bufs
  induction bufs with
  | nil => intro s; simp [globalIds]
  | cons b rest ih =>
    intro s
    rw [globalIds, ih (s + b.length)]
    rw [List.map_cons, List.sum_cons, List.range_add]
    rw [List.map_append, List.map_map]
    congr 1
    apply List.map_congr_left
    intro i _
    simp [Function.comp]
    omega

theorem globalIds_pairwise_lt {α : Type} (bufs : List (List α)) :
    (globalIds 0 bufs).Pairwise (· < ·) := by
  rw [globalIds_eq]
  rw [List.pairwise_map]
  exact (List.pairwise_lt_range _).imp (fun h => by omega)

/-- C6: at the moment each buffer is batched, the running offset `start_id`
equals the sum of the sizes of all previously completed buffers (0 before
the first buffer), and consequently the global ids `start_id + LocalId`
assigned across the whole input are strictly increasing in input order,
hence pairwise distinct. -/
theorem start_id_invariant (input : List Char) (B : Nat) (hB : 1 ≤ B) :
    (∀ k, k < (buffered_read_str input B).length →
        (bufferOffsets 0 (buffered_read_str input B)).getD k 0
          = (((buffered_read_str input B).take k).map List.length).sum)
    ∧ (globalIds 0 (buffered_read_str input B)).Pairwise (· < ·) := by
  constructor
  · intro k hk
    have := bufferOffsets_getD (buffered_read_str input B) 0 k hk
    simpa using this
  · exact globalIds_pairwise_lt _

theorem start_id_invariant_witness :
    (∀ k, k < (buffered_read_str ('a' :: 'b' :: []) 1).length →
        (bufferOffsets 0 (buffered_read_str ('a' :: 'b' :: []) 1)).getD k 0
          = (((buffered_read_str ('a' :: 'b' :: []) 1).take k).map List.length).sum)
    ∧ (globalIds 0 (buffered_read_str ('a' :: 'b' :: []) 1)).Pairwise (· < ·) :=
  start_id_invariant ('a' :: 'b' :: []) 1 (by decide)

theorem cutChunks_space : cutChunks 249 (' ' :: []) = (' ' :: []) :: [] := by
  rw [cutChunks_cons]
  simp [cutChunks_nil]

/-- C3 (code bug, failing input `" "` with buffer capacity 1): per the spec
the Chunker drops chunks that trim to empty, so on an input of one space
its output is empty and concatenating the buffers should reproduce it; the
code's guard `src_str.strip() is not None` is always true, so the chunk
that trims to empty is appended and the concatenation of the emitted
buffers contains an empty line the Chunker output does not have. -/
theorem buffered_concat_mismatch :
    (buffered_read_str (' ' :: []) 1).flatten = ([] : List Char) :: []
    ∧ specChunkerOutput (' ' :: []) = [] := by
  constructor
  · rw [buffered_read_str, cut_str_250, cutChunks_space]
    decide
  · rw [specChunkerOutput, cutChunks_space]
    decide

/-- C5 (code bug, failing input `" "` with buffer capacity 1): the chunk
`" "` trims to the empty string, yet it is not dropped: the code emits one
buffer whose single line is empty, because the guard
`src_str.strip() is not None` never holds false. -/
theorem empty_line_not_dropped :
    buffered_read_str (' ' :: []) 1 = (([] : List Char) :: []) :: [] := by
  rw [buffered_read_str, cut_str_250, cutChunks_space]
  decide

/-- C7 counterexample: a 2-line buffer whose collected results miss local
id 0 (the engine dropped it).  The claim says the pipeline must fail with a
fatal `InconsistencyError` and produce no output for the buffer; the code
raises nothing and silently emits output for the one line that has a
result. -/
theorem missing_result_silently_ignored :
    processBuffer sampleEngine 0 (('a' :: []) :: ('b' :: []) :: []) ((1 :: []) :: [])
      = some ('b' :: 'b' :: [])
    ∧ processBuffer sampleEngine 0 (('a' :: []) :: ('b' :: []) :: []) ((1 :: []) :: [])
      ≠ none := by
  constructor <;> decide

/-- C7 amended: during reassembly of a buffer, a local id with no
corresponding result among the collected results raises no error: the
reassembler silently emits output for exactly the results that are present,
in ascending id order (each present result contributing its decoded top
hypothesis), rather than failing. -/
theorem reassemble_partial_results (E : Engine Out)
    (results : List (Nat × List Char × List Out))
    (hne : ∀ r ∈ results, r.2.2 ≠ []) :
    reassemble E results
      = some (((List.insertionSort keyLe results).map
          (fun r => match r.2.2 with
            | [] => []
            | hypo :: _ => E.postProcess hypo r.2.1)).flatten) := by
  rw [reassemble]
  rw [mapM_eq_some_map (topProcess E) _
    (fun r => match r.2.2 with
      | [] => []
      | hypo :: _ => E.postProcess hypo r.2.1)
    (by
      intro a ha
      have hmem : a ∈ results :=
        (List.perm_insertionSort keyLe results).mem_iff.mp ha
      rcases hr : a.2.2 with _ | ⟨hypo, rest⟩
      · exact absurd hr (hne a hmem)
      · simp only [topProcess, hr])]
  rfl

theorem reassemble_partial_results_witness :
    reassemble sampleEngine ((1, 'b' :: [], (('B' :: []) :: [])) :: [])
      = some (((List.insertionSort keyLe
            ((1, 'b' :: [], (('B' :: []) :: [])) :: [])).map
          (fun r => match r.2.2 with
            | [] => []
            | hypo :: _ => sampleEngine.postProcess hypo r.2.1)).flatten) :=
  reassemble_partial_results sampleEngine
    ((1, 'b' :: [], (('B' :: []) :: [])) :: []) (by decide)

/-- The duck-typed options object, restricted to the fields that
`ibox_interactive.__init__` (ibox_interactive.py, lines 71–83) reads when it
validates the configuration.  A Python value `None` is `none`. -/
structure Args where
  buffer_size : Int
  max_tokens : Option Int
  max_sentences : Option Int
  sampling : Bool
  nbest : Int
  beam : Int
deriving DecidableEq

/-- The two defaulting steps that `__init__` performs before its asserts
(lines 74–77): `buffer_size < 1` is coerced to 1, and when both limits are
`None`, `max_sentences` is set to 1. -/
def coerceArgs (a : Args) : Args :=
  let a1 := if a.buffer_size < 1 then { a with buffer_size := 1 } else a
  if a1.max_tokens = none ∧ a1.max_sentences = none then
    { a1 with max_sentences := some 1 }
  else a1

/-- `not args.sampling or args.nbest == args.beam` (line 79). -/
def samplingOk (a : Args) : Bool :=
  !a.sampling || (a.nbest == a.beam)

/-- `not args.max_sentences or args.max_sentences <= args.buffer_size`
(line 81): in Python both `None` and `0` are falsy, short-circuiting the
disjunction. -/
def maxSentencesOk (a : Args) : Bool :=
  match a.max_sentences with
  | none => true
  | some n => (n == 0) || decide (n ≤ a.buffer_size)

/-- The configuration handling of `ibox_interactive.__init__` (lines
74–83): the two coercions, then the two asserts in source order; an
`AssertionError` aborts construction, otherwise construction proceeds with
the coerced args. -/
def ibox_interactive_init (a : Args) : Except String Args :=
  if samplingOk (coerceArgs a) = false then
    Except.error "AssertionError: --sampling requires --nbest to be equal to --beam"
  else if maxSentencesOk (coerceArgs a) = false then
    Except.error "AssertionError: --max-sentences/--batch-size cannot be larger than --buffer-size"
  else Except.ok (coerceArgs a)

/-- C8 counterexample: with neither limit set (both `None`), construction
does not fail: `max_sentences` is silently defaulted to 1 and validation
passes — there is no `ConfigurationError`. -/
theorem both_limits_unset_no_error :
    ibox_interactive_init (Args.mk 5 none none false 1 1)
      = Except.ok (Args.mk 5 none (some 1) false 1 1) := by
  rfl

theorem coerceArgs_sampling (a : Args) : (coerceArgs a).sampling = a.sampling := by
  rw [coerceArgs]
  split_ifs <;> rfl

theorem coerceArgs_nbest (a : Args) : (coerceArgs a).nbest = a.nbest := by
  rw [coerceArgs]
  split_ifs <;> rfl

theorem coerceArgs_beam (a : Args) : (coerceArgs a).beam = a.beam := by
  rw [coerceArgs]
  split_ifs <;> rfl

/-- C8 amended: if neither max tokens nor max sentences is set,
construction does not fail — `max_sentences` is defaulted to 1;
construction fails exactly when sampling is enabled with `nbest ≠ beam`, or
when the (defaulted) `max_sentences` is a nonzero value exceeding the
(coerced) `buffer_size`. -/
theorem init_fails_iff (a : Args) :
    isError (ibox_interactive_init a) = true ↔
      (a.sampling = true ∧ a.nbest ≠ a.beam)
      ∨ (∃ n, (coerceArgs a).max_sentences = some n ∧ n ≠ 0
          ∧ (coerceArgs a).buffer_size < n) := by
  rw [ibox_interactive_init]
  by_cases hs : samplingOk (coerceArgs a) = false
  · rw [if_pos hs]
    simp only [isError, true_iff]
    left
    rw [samplingOk, coerceArgs_sampling, coerceArgs_nbest, coerceArgs_beam] at hs
    constructor
    · cases h : a.sampling
      · rw [h] at hs; simp at hs
      · rfl
    · intro heq
      rw [heq] at hs
      simp at hs
  · rw [if_neg hs]
    have hs2 : a.sampling = true → a.nbest = a.beam := by
      intro h
      rw [samplingOk, coerceArgs_sampling, coerceArgs_nbest, coerceArgs_beam, h] at hs
      simpa using Bool.not_eq_false _ |>.mp hs
    by_cases hm : maxSentencesOk (coerceArgs a) = false
    · rw [if_pos hm]
      simp only [isError, true_iff]
      right
      rw [maxSentencesOk] at hm
      rcases hms : (coerceArgs a).max_sentences with _ | n
      · rw [hms] at hm; simp at hm
      · rw [hms] at hm
        simp only [Bool.or_eq_false_iff, beq_eq_false_iff_ne, decide_eq_false_iff_not,
          not_le] at hm
        exact ⟨n, rfl, hm.1, hm.2⟩
    · rw [if_neg hm]
      simp only [isError, Bool.false_eq_true, false_iff]
      intro hcontra
      rcases hcontra with ⟨h1, h2⟩ | ⟨n, hn, hn0, hnbs⟩
      · exact h2 (hs2 h1)
      · rw [maxSentencesOk, hn] at hm
        simp only [Bool.or_eq_false_iff, beq_eq_false_iff_ne, decide_eq_false_iff_not,
          not_le, not_and, not_lt] at hm
        omega

theorem init_fails_iff_witness :
    isError (ibox_interactive_init (Args.mk 2 none (some 3) false 1 1)) = true ↔
      ((Args.mk 2 none (some 3) false 1 1).sampling = true
          ∧ (Args.mk 2 none (some 3) false 1 1).nbest ≠ (Args.mk 2 none (some 3) false 1 1).beam)
      ∨ (∃ n, (coerceArgs (Args.mk 2 none (some 3) false 1 1)).max_sentences = some n ∧ n ≠ 0
          ∧ (coerceArgs (Args.mk 2 none (some 3) false 1 1)).buffer_size < n) :=
  init_fails_iff (Args.mk 2 none (some 3) false 1 1)

/-- C9 counterexample: a negative chunk length does not make `cut_str`
fail.  `range(0, len(text), -1)` is empty in Python, so the comprehension
returns the empty list and the call succeeds. -/
theorem cut_str_negative_no_error :
    cut_str ('a' :: []) (-1) = Except.ok [] := by
  rfl

/-- C9 amended: the Chunker fails if and only if the chunk length is
exactly zero (`ValueError` from `range`); a positive length succeeds, and a
negative length silently succeeds producing zero chunks. -/
theorem cut_str_fails_iff (text : List Char) (L : Int) :
    (isError (cut_str text L) = true ↔ L = 0)
    ∧ (L < 0 → cut_str text L = Except.ok []) := by
  constructor
  · rw [cut_str]
    by_cases h0 : L = 0
    · rw [if_pos h0]
      simp [isError, h0]
    · rw [if_neg h0]
      by_cases h1 : L < 0
      · rw [if_pos h1]
        simp [isError, h0]
      · rw [if_neg h1]
        simp [isError, h0]
  · intro h
    rw [cut_str, if_neg (by omega), if_pos h]

theorem cut_str_fails_iff_witness :
    (isError (cut_str ('a' :: []) (-1)) = true ↔ (-1 : Int) = 0)
    ∧ ((-1 : Int) < 0 → cut_str ('a' :: []) (-1) = Except.ok []) :=
  cut_str_fails_iff ('a' :: []) (-1)

/-- The state of `WarmupLinearSchedule` relevant to `step_update`:
`__init__` (warmup_linear_scheduler.py, lines 13–27) assigns `self.lr`,
`self.warmup_factor`, `self.end_learning_rate`, `self.total_num_update` and
`self.power`; it never assigns `self.total_num_updates` nor
`self.warmup_steps`.  Python floats are modelled as rationals. -/
structure WarmupLinearSchedule where
  warmup_updates : Int
  lr : Rat
  total_num_update : Int
deriving DecidableEq

/-- `WarmupLinearSchedule.step_update` (warmup_linear_scheduler.py, lines
56–66).  When `warmup_updates > 0 and num_updates <= warmup_updates`, the
warmup branch sets `lr = (num_updates / max(1, warmup_updates)) * self.lr`
and `set_lr(lr); return get_lr()` yields it.  The else branch evaluates
`self.total_num_updates` and `self.warmup_steps` — attributes that were
never assigned, so Python raises `AttributeError` — and in any case assigns
`lf`, not `lr`, so the following `set_lr(lr)` would raise
`UnboundLocalError`; either way the step fails. -/
def step_update (s : WarmupLinearSchedule) (num_updates : Int) : Except String Rat :=
  if s.warmup_updates > 0 ∧ num_updates ≤ s.warmup_updates then
    Except.ok (((num_updates : Rat) / ((max 1 s.warmup_updates : Int) : Rat)) * s.lr)
  else
    Except.error "AttributeError: WarmupLinearSchedule object has no attribute total_num_updates"

/-- C10: whenever the warmup condition is not met (`warmup_updates == 0` or
`num_updates > warmup_updates`), `step_update` fails — its decay branch
references attributes that were never assigned and a variable used before
assignment — instead of setting a decayed learning rate; whenever the
warmup condition is met (`warmup_updates > 0` and
`num_updates <= warmup_updates`), it succeeds and returns
`(num_updates / warmup_updates) * self.lr`. -/
theorem step_update_spec (s : WarmupLinearSchedule) (num_updates : Int) :
    ((s.warmup_updates = 0 ∨ s.warmup_updates < num_updates) →
        isError (step_update s num_updates) = true)
    ∧ ((s.warmup_updates > 0 ∧ num_updates ≤ s.warmup_updates) →
        step_update s num_updates
          = Except.ok (((num_updates : Rat) / ((s.warmup_updates : Int) : Rat)) * s.lr)) := by
  constructor
  · intro h
    rw [step_update, if_neg (by omega)]
    rfl
  · intro h
    rw [step_update, if_pos h]
    have hmax : max 1 s.warmup_updates = s.warmup_updates := by omega
    rw [hmax]

theorem step_update_spec_witness :
    (((10 : Int) = 0 ∨ (10 : Int) < 5) →
        isError (step_update (WarmupLinearSchedule.mk 10 2 1000000) 5) = true)
    ∧ (((10 : Int) > 0 ∧ (5 : Int) ≤ 10) →
        step_update (WarmupLinearSchedule.mk 10 2 1000000) 5
          = Except.ok ((((5 : Int) : Rat) / (((10 : Int) : Int) : Rat)) * 2)) :=
  step_update_spec (WarmupLinearSchedule.mk 10 2 1000000) 5

end WeTS
